import Mathlib

/-!
Verification of the quiz-puzzle core of the kids word-learning app
(`src/js/app.js`).  The JavaScript functions are shallowly embedded as
pure Lean functions; `Math.random()` draws are modelled by explicitly
passed streams `Nat → Nat` (each draw `Math.floor(Math.random() * n)` is
read off the stream modulo `n`), so every theorem quantifies over all
possible sequences of random draws.
-/

namespace KidsApp

/-- A catalog entry, as in the JSON word files consumed by `loadWords`:
`word` text, `phonics` hint and `category` tag (kept as a plain string,
as in the source). -/
structure WordRecord where
  word : String
  phonics : String
  category : String
deriving DecidableEq

/-- One swap step of the Fisher–Yates loop in `shuffleArray`
(`[shuffled[i], shuffled[j]] = [shuffled[j], shuffled[i]]`).  Out-of-range
indices leave the list unchanged (the source never produces them). -/
def listSwap (l : List α) (i j : Nat) : List α :=
  match l[i]?, l[j]? with
  | some a, some b => (l.set i b).set j a
  | _, _ => l

/-- The loop `for (let i = shuffled.length - 1; i > 0; i--)` of
`shuffleArray` (src/js/app.js:652-659); the argument is the current
index `i`, and `r i % (i+1)` models `Math.floor(Math.random() * (i + 1))`. -/
def fyLoop (r : Nat → Nat) : Nat → List α → List α
  | 0, l => l
  | i + 1, l => fyLoop r i (listSwap l (i + 1) (r (i + 1) % (i + 2)))

/-- `shuffleArray` (src/js/app.js:652-659).  The source first copies its
argument (`const shuffled = [...array]`) and swaps only the copy, so the
input array is never mutated; the embedding is accordingly a pure
function of the input list. -/
def shuffleArray (r : Nat → Nat) (l : List α) : List α :=
  fyLoop r (l.length - 1) l

theorem cons_set_perm {α : Type _} :
    ∀ (t : List α) (k : Nat) (b c : α), t[k]? = some c →
      List.Perm (c :: t.set k b) (b :: t)
  | [], k, _, _, h => by simp at h
  | y :: t', 0, b, c, h => by
    simp only [List.getElem?_cons_zero, Option.some.injEq] at h
    subst h
    simpa using List.Perm.swap b y t'
  | y :: t', k + 1, b, c, h => by
    simp only [List.getElem?_cons_succ] at h
    have h1 : List.Perm (c :: y :: t'.set k b) (y :: c :: t'.set k b) :=
      List.Perm.swap y c _
    have h2 : List.Perm (y :: c :: t'.set k b) (y :: (b :: t')) :=
      List.Perm.cons y (cons_set_perm t' k b c h)
    have h3 : List.Perm (y :: (b :: t')) (b :: y :: t') := List.Perm.swap b y t'
    simpa using List.Perm.trans (List.Perm.trans h1 h2) h3

theorem set_set_perm {α : Type _} :
    ∀ (l : List α) (i j : Nat) (a b : α), l[i]? = some a → l[j]? = some b →
      List.Perm ((l.set i b).set j a) l
  | [], i, _, _, _, hi, _ => by simp at hi
  | x :: t, 0, 0, a, b, hi, hj => by
    simp only [List.getElem?_cons_zero, Option.some.injEq] at hi hj
    subst hi; subst hj
    simp
  | x :: t, 0, j + 1, a, b, hi, hj => by
    simp only [List.getElem?_cons_zero, Option.some.injEq,
      List.getElem?_cons_succ] at hi hj
    subst hi
    simpa using cons_set_perm t j x b hj
  | x :: t, i + 1, 0, a, b, hi, hj => by
    simp only [List.getElem?_cons_zero, Option.some.injEq,
      List.getElem?_cons_succ] at hi hj
    subst hj
    simpa using cons_set_perm t i x a hi
  | x :: t, i + 1, j + 1, a, b, hi, hj => by
    simp only [List.getElem?_cons_succ] at hi hj
    simpa using List.Perm.cons x (set_set_perm t i j a b hi hj)

theorem listSwap_perm {α : Type _} (l : List α) (i j : Nat) :
    List.Perm (listSwap l i j) l := by
  unfold listSwap
  cases hi : l[i]? with
  | none => cases l[j]? <;> exact List.Perm.refl l
  | some a =>
    cases hj : l[j]? with
    | none => exact List.Perm.refl l
    | some b => exact set_set_perm l i j a b hi hj

theorem fyLoop_perm {α : Type _} (r : Nat → Nat) :
    ∀ (n : Nat) (l : List α), List.Perm (fyLoop r n l) l
  | 0, l => List.Perm.refl l
  | n + 1, l =>
    List.Perm.trans (fyLoop_perm r n _) (listSwap_perm l (n + 1) (r (n + 1) % (n + 2)))

theorem shuffleArray_perm_lemma {α : Type _} (r : Nat → Nat) (l : List α) :
    List.Perm (shuffleArray r l) l :=
  fyLoop_perm r (l.length - 1) l

/-- Claim C10: for every input array and every sequence of random draws,
`shuffleArray` returns a permutation of its input (same elements with the
same multiplicities).  The source copies the array before swapping
(`const shuffled = [...array]`), so the input array itself is left
unmodified — in this pure embedding that is reflected by `shuffleArray`
being a function of the (immutable) input list. -/
theorem shuffleArray_perm {α : Type _} (r : Nat → Nat) (l : List α) :
    List.Perm (shuffleArray r l) l :=
  shuffleArray_perm_lemma r l

/-- The uppercased character sequence of a word
(`this.gameState.currentWord.word.toUpperCase()` in
`generateWordPuzzle`, src/js/app.js:742). -/
def upperChars (text : String) : List Char :=
  text.data.map Char.toUpper

/-- The digraph list tried by `generateWordPuzzle` (src/js/app.js:754),
in source order. -/
def digraphs : List (List Char) :=
  [['S', 'H'], ['C', 'H'], ['T', 'H'], ['P', 'H'], ['W', 'H']]

/-- The blend list tried by `generateWordPuzzle` (src/js/app.js:755),
in source order. -/
def blends : List (List Char) :=
  [['S', 'T'], ['S', 'P'], ['S', 'K'], ['S', 'M'], ['S', 'N'],
   ['S', 'L'], ['S', 'W'], ['S', 'C']]

/-- `pat` occurs in `w` starting at index `i`. -/
def occursAt (w pat : List Char) (i : Nat) : Prop :=
  (w.drop i).take pat.length = pat

instance (w pat : List Char) (i : Nat) : Decidable (occursAt w pat i) := by
  unfold occursAt; infer_instance

/-- JavaScript `word.indexOf(pat)` for a non-empty pattern: the least
index at which `pat` occurs, or `none` (JS `-1`) when it never occurs. -/
def indexOfSub (pat : List Char) : List Char → Option Nat
  | [] => if pat = [] then some 0 else none
  | c :: w' =>
    if (c :: w').take pat.length = pat then some 0
    else (indexOfSub pat w').map (· + 1)

/-- The `for (const digraph of digraphs)` / `for (const blend of blends)`
search in `generateWordPuzzle` (src/js/app.js:760-781): the first pattern
in list order that occurs anywhere in `w`, with the index `indexOf`
reports for it. -/
def findFirstSub (w : List Char) : List (List Char) → Option (List Char × Nat)
  | [] => none
  | p :: ps =>
    match indexOfSub p w with
    | some i => some (p, i)
    | none => findFirstSub w ps

/-- `word.substring(0, i) + '_'.repeat(len) + word.substring(i + len)`:
the masked display with `len` placeholder characters at index `i`
(JavaScript `substring` clamps out-of-range positions, as `take`/`drop`
do). -/
def maskAt (w : List Char) (i len : Nat) : List Char :=
  w.take i ++ List.replicate len '_' ++ w.drop (i + len)

/-- The part of a generated puzzle produced by `generateWordPuzzle`
itself: the missing substring (the round's correct answer; `none` models
the JavaScript `undefined` produced by an out-of-range `word[position]`)
and the masked display word. -/
structure PuzzleOut where
  missingPart : Option String
  displayWord : String
deriving DecidableEq

/-- `generateWordPuzzle` (src/js/app.js:741-794), as a function of the
word text and the stream of random draws.  For `word.length <= 3` the
position is `Math.random() > 0.5 ? 1 : 2` (modelled by the parity of
`r 0`); otherwise the digraph list, then the blend list, is searched via
`indexOf`, and if neither matches, a uniformly random position
`Math.floor(Math.random() * word.length)` is masked. -/
def generateWordPuzzle (r : Nat → Nat) (text : String) : PuzzleOut :=
  let w := upperChars text
  if w.length ≤ 3 then
    let position := if r 0 % 2 = 0 then 1 else 2
    { missingPart := (w[position]?).map (fun c => String.mk [c]),
      displayWord := String.mk (maskAt w position 1) }
  else
    match findFirstSub w digraphs with
    | some (d, i) =>
      { missingPart := some (String.mk d),
        displayWord := String.mk (maskAt w i d.length) }
    | none =>
      match findFirstSub w blends with
      | some (b, i) =>
        { missingPart := some (String.mk b),
          displayWord := String.mk (maskAt w i b.length) }
      | none =>
        let position := r 0 % w.length
        { missingPart := (w[position]?).map (fun c => String.mk [c]),
          displayWord := String.mk (maskAt w position 1) }

theorem indexOfSub_occurs {pat : List Char} :
    ∀ {w : List Char} {i : Nat}, indexOfSub pat w = some i → occursAt w pat i := by
  intro w
  induction w with
  | nil =>
    intro i h
    unfold indexOfSub at h
    by_cases hp : pat = []
    · rw [if_pos hp] at h
      obtain rfl : (0 : Nat) = i := by simpa using h
      simp [occursAt, hp]
    · rw [if_neg hp] at h
      exact absurd h (by simp)
  | cons c w' ih =>
    intro i h
    unfold indexOfSub at h
    by_cases hc : (c :: w').take pat.length = pat
    · rw [if_pos hc] at h
      obtain rfl : (0 : Nat) = i := by simpa using h
      simpa [occursAt] using hc
    · rw [if_neg hc] at h
      obtain ⟨i', hi', rfl⟩ := Option.map_eq_some'.mp h
      simpa [occursAt] using ih hi'

theorem indexOfSub_min {pat : List Char} :
    ∀ {w : List Char} {i : Nat}, indexOfSub pat w = some i →
      ∀ j, j < i → ¬ occursAt w pat j := by
  intro w
  induction w with
  | nil =>
    intro i h j hj
    unfold indexOfSub at h
    by_cases hp : pat = []
    · rw [if_pos hp] at h
      obtain rfl : (0 : Nat) = i := by simpa using h
      exact absurd hj (Nat.not_lt_zero j)
    · rw [if_neg hp] at h
      exact absurd h (by simp)
  | cons c w' ih =>
    intro i h j hj
    unfold indexOfSub at h
    by_cases hc : (c :: w').take pat.length = pat
    · rw [if_pos hc] at h
      obtain rfl : (0 : Nat) = i := by simpa using h
      exact absurd hj (Nat.not_lt_zero j)
    · rw [if_neg hc] at h
      obtain ⟨i', hi', rfl⟩ := Option.map_eq_some'.mp h
      cases j with
      | zero => simpa [occursAt] using hc
      | succ j' =>
        have hj' : j' < i' := by omega
        simpa [occursAt] using ih hi' j' hj'

theorem indexOfSub_none {pat : List Char} :
    ∀ {w : List Char}, indexOfSub pat w = none → ∀ i, ¬ occursAt w pat i := by
  intro w
  induction w with
  | nil =>
    intro h i hocc
    unfold indexOfSub at h
    by_cases hp : pat = []
    · rw [if_pos hp] at h
      exact absurd h (by simp)
    · apply hp
      have h2 : (List.drop i []).take pat.length = pat := hocc
      simpa using h2.symm
  | cons c w' ih =>
    intro h i hocc
    unfold indexOfSub at h
    by_cases hc : (c :: w').take pat.length = pat
    · rw [if_pos hc] at h
      exact absurd h (by simp)
    · rw [if_neg hc] at h
      have h' : indexOfSub pat w' = none := Option.map_eq_none'.mp h
      cases i with
      | zero => exact hc (by simpa [occursAt] using hocc)
      | succ i' => exact ih h' i' (by simpa [occursAt] using hocc)

theorem findFirstSub_none {w : List Char} :
    ∀ {ps : List (List Char)}, findFirstSub w ps = none →
      ∀ p ∈ ps, ∀ i, ¬ occursAt w p i := by
  intro ps
  induction ps with
  | nil => intro _ p hp; simp at hp
  | cons q ps' ih =>
    intro h p hp i
    unfold findFirstSub at h
    cases hq : indexOfSub q w with
    | some i₀ => simp [hq] at h
    | none =>
      simp only [hq] at h
      rcases List.mem_cons.mp hp with rfl | hp'
      · exact indexOfSub_none hq i
      · exact ih h p hp' i

theorem findFirstSub_some {w : List Char} :
    ∀ {ps : List (List Char)} {p : List Char} {i : Nat},
      findFirstSub w ps = some (p, i) →
      ∃ pre suf, ps = pre ++ p :: suf ∧
        (∀ q ∈ pre, ∀ j, ¬ occursAt w q j) ∧
        occursAt w p i ∧ ∀ j, j < i → ¬ occursAt w p j := by
  intro ps
  induction ps with
  | nil => intro p i h; simp [findFirstSub] at h
  | cons q ps' ih =>
    intro p i h
    unfold findFirstSub at h
    cases hq : indexOfSub q w with
    | some i₀ =>
      simp only [hq, Option.some.injEq, Prod.mk.injEq] at h
      obtain ⟨rfl, rfl⟩ := h
      refine ⟨[], ps', rfl, ?_, indexOfSub_occurs hq, indexOfSub_min hq⟩
      intro q' hq'
      exact absurd hq' (List.not_mem_nil q')
    | none =>
      simp only [hq] at h
      obtain ⟨pre, suf, hsplit, hpre, hocc, hmin⟩ := ih h
      refine ⟨q :: pre, suf, by simp [hsplit], ?_, hocc, hmin⟩
      intro q' hq' j
      rcases List.mem_cons.mp hq' with rfl | hq''
      · exact indexOfSub_none hq j
      · exact hpre q' hq'' j

/-- Claim C2 (amended): for a word longer than three characters that
contains at least one digraph, `generateWordPuzzle` tries the digraphs in
the fixed source order SH, CH, TH, PH, WH and masks the leftmost
occurrence of the first digraph in that order occurring anywhere in the
word — the whole digraph, never a blend or a single letter. -/
theorem generateWordPuzzle_digraph_priority (r : Nat → Nat) (text : String)
    (h3 : 3 < (upperChars text).length)
    (hdg : ∃ d ∈ digraphs, ∃ i, occursAt (upperChars text) d i) :
    ∃ d i pre suf,
      digraphs = pre ++ d :: suf ∧
      occursAt (upperChars text) d i ∧
      (∀ j, j < i → ¬ occursAt (upperChars text) d j) ∧
      (∀ q ∈ pre, ∀ j, ¬ occursAt (upperChars text) q j) ∧
      (generateWordPuzzle r text).missingPart = some (String.mk d) ∧
      (generateWordPuzzle r text).displayWord =
        String.mk (maskAt (upperChars text) i d.length) := by
  cases h : findFirstSub (upperChars text) digraphs with
  | none =>
    exfalso
    obtain ⟨d, hd, i, hocc⟩ := hdg
    exact findFirstSub_none h d hd i hocc
  | some di =>
    obtain ⟨d, i⟩ := di
    obtain ⟨pre, suf, hsplit, hpre, hocc, hmin⟩ := findFirstSub_some h
    have hnle : ¬ (upperChars text).length ≤ 3 := Nat.not_le.mpr h3
    exact ⟨d, i, pre, suf, hsplit, hocc, hmin, hpre,
      by simp [generateWordPuzzle, hnle, h],
      by simp [generateWordPuzzle, hnle, h]⟩

theorem generateWordPuzzle_digraph_priority_witness :
    (3 < (upperChars "ship").length ∧
      ∃ d ∈ digraphs, ∃ i, occursAt (upperChars "ship") d i) ∧
    (∃ d i pre suf,
      digraphs = pre ++ d :: suf ∧
      occursAt (upperChars "ship") d i ∧
      (∀ j, j < i → ¬ occursAt (upperChars "ship") d j) ∧
      (∀ q ∈ pre, ∀ j, ¬ occursAt (upperChars "ship") q j) ∧
      (generateWordPuzzle (fun _ => 0) "ship").missingPart = some (String.mk d) ∧
      (generateWordPuzzle (fun _ => 0) "ship").displayWord =
        String.mk (maskAt (upperChars "ship") i d.length)) :=
  ⟨⟨by decide, ⟨['S', 'H'], by decide, 0, by decide⟩⟩,
    generateWordPuzzle_digraph_priority (fun _ => 0) "ship" (by decide)
      ⟨['S', 'H'], by decide, 0, by decide⟩⟩

/-- A second definition following the words of claim C2, not the source:
scan the word left to right, and at the first position where any of the
digraphs matches, return that digraph and position ("first match wins"
over positions in the word). -/
def leftmostDigraphScan (w : List Char) : Option (List Char × Nat) :=
  (List.range w.length).findSome? fun i =>
    (digraphs.find? fun d => decide (occursAt w d i)).map fun d => (d, i)

/-- Claim C2 counterexample: on "theshop" (length 7 > 3) the code masks
the digraph SH at index 3 (digraph-list priority order: SH is tried
first), while the claim's word-order scan finds TH at index 0; the
resulting masked displays differ, so the claim as stated is false. -/
theorem generateWordPuzzle_leftmost_refuted :
    (generateWordPuzzle (fun _ => 0) "theshop").missingPart = some "SH" ∧
    (generateWordPuzzle (fun _ => 0) "theshop").displayWord = "THE__OP" ∧
    leftmostDigraphScan (upperChars "theshop") = some (['T', 'H'], 0) ∧
    String.mk ['T', 'H'] ≠ "SH" ∧
    String.mk (maskAt (upperChars "theshop") 0 2) = "__ESHOP" ∧
    ("THE__OP" : String) ≠ "__ESHOP" := by decide

/-- Claim C3 (amended): for every word whose text has length exactly 3,
`generateWordPuzzle` masks exactly one character, at index 1 or index 2
(by a random draw), never index 0, and the masked display replaces that
one character with a single placeholder, preserving all other
characters.  (For shorter words the randomly chosen index can fall
outside the word, in which case nothing is masked — see the
counterexample.) -/
theorem generateWordPuzzle_short_word (r : Nat → Nat) (text : String)
    (h : (upperChars text).length = 3) :
    ∃ p c, (p = 1 ∨ p = 2) ∧ (upperChars text)[p]? = some c ∧
      (generateWordPuzzle r text).missingPart = some (String.mk [c]) ∧
      (generateWordPuzzle r text).displayWord =
        String.mk ((upperChars text).take p ++ '_' :: (upperChars text).drop (p + 1)) := by
  obtain ⟨a, b, c, hw⟩ := List.length_eq_three.mp h
  by_cases hr : r 0 % 2 = 0
  · exact ⟨1, b, Or.inl rfl, by simp [hw],
      by simp [generateWordPuzzle, hw, hr],
      by simp [generateWordPuzzle, maskAt, hw, hr]⟩
  · exact ⟨2, c, Or.inr rfl, by simp [hw],
      by simp [generateWordPuzzle, hw, hr],
      by simp [generateWordPuzzle, maskAt, hw, hr]⟩

theorem generateWordPuzzle_short_word_witness :
    (upperChars "cat").length = 3 ∧
    (∃ p c, (p = 1 ∨ p = 2) ∧ (upperChars "cat")[p]? = some c ∧
      (generateWordPuzzle (fun _ => 0) "cat").missingPart = some (String.mk [c]) ∧
      (generateWordPuzzle (fun _ => 0) "cat").displayWord =
        String.mk ((upperChars "cat").take p ++ '_' :: (upperChars "cat").drop (p + 1))) :=
  ⟨by decide, generateWordPuzzle_short_word (fun _ => 0) "cat" (by decide)⟩

/-- Claim C3 counterexample: "ox" has length 2 ≤ 3, and when the random
draw picks index 2 the code reads `word[2]`, which is out of range
(JavaScript `undefined`, modelled as `none`): no character is masked at
all, and the display "OX_" appends a placeholder instead of replacing a
character (its length is 3, not 2). -/
theorem generateWordPuzzle_short_word_refuted :
    ("ox".length ≤ 3) ∧
    (generateWordPuzzle (fun _ => 1) "ox").missingPart = none ∧
    (generateWordPuzzle (fun _ => 1) "ox").displayWord = "OX_" ∧
    ("OX_" : String).length = 3 ∧ ("ox" : String).length = 2 := by decide

/-- Claim C6 (amended): `generateWordPuzzle` never fails; on a word with
empty text it returns a degenerate puzzle whose missing part is absent
(the JavaScript `undefined`) and whose display is a single placeholder,
rather than failing with an `InvalidWordError` (no such error exists in
the source). -/
theorem generateWordPuzzle_empty_total (r : Nat → Nat) :
    (generateWordPuzzle r "").missingPart = none ∧
    (generateWordPuzzle r "").displayWord = "_" := by
  have h : generateWordPuzzle r "" = ⟨none, "_"⟩ := by
    unfold generateWordPuzzle
    by_cases hr : r 0 % 2 = 0 <;> simp [upperChars, maskAt, hr]
  rw [h]
  exact ⟨rfl, rfl⟩

/-- Claim C6 counterexample: on the empty word `generateWordPuzzle`
returns an ordinary value (no failure of any kind — the source contains
no `InvalidWordError` and no throw): the claim that it fails on empty
input is false. -/
theorem generateWordPuzzle_empty_no_failure :
    generateWordPuzzle (fun _ => 0) "" = ⟨none, "_"⟩ := by decide

/-- The visual/phonetic confusability table of `generateSimilarLetters`
(src/js/app.js:827-868): 26 single-letter entries plus 9 two-letter
entries, with the `['X', 'Y', 'Z']` fallback for keys not in the table. -/
def similarTable : List (String × List String) :=
  [("A", ["E", "I", "O"]), ("B", ["D", "P", "R"]), ("C", ["G", "O", "Q"]),
   ("D", ["B", "O", "P"]), ("E", ["A", "F", "I"]), ("F", ["E", "P", "T"]),
   ("G", ["C", "O", "Q"]), ("H", ["N", "R", "K"]), ("I", ["A", "E", "L"]),
   ("J", ["I", "L", "T"]), ("K", ["H", "R", "X"]), ("L", ["I", "J", "T"]),
   ("M", ["N", "H", "W"]), ("N", ["M", "H", "R"]), ("O", ["C", "G", "Q"]),
   ("P", ["B", "D", "F"]), ("Q", ["C", "G", "O"]), ("R", ["B", "H", "K"]),
   ("S", ["C", "G", "Z"]), ("T", ["F", "J", "L"]), ("U", ["V", "W", "Y"]),
   ("V", ["U", "W", "Y"]), ("W", ["M", "U", "V"]), ("X", ["K", "Y", "Z"]),
   ("Y", ["U", "V", "X"]), ("Z", ["S", "X", "Y"]),
   ("SH", ["CH", "TH", "PH"]), ("CH", ["SH", "TH", "PH"]),
   ("TH", ["SH", "CH", "PH"]), ("PH", ["SH", "CH", "TH"]),
   ("WH", ["SH", "CH", "TH"]),
   ("ST", ["SP", "SK", "SM"]), ("SP", ["ST", "SK", "SM"]),
   ("SK", ["ST", "SP", "SM"]), ("SM", ["ST", "SP", "SK"])]

/-- `generateSimilarLetters` (src/js/app.js:827-868):
`similar[correctAnswer] || ['X', 'Y', 'Z']`. -/
def generateSimilarLetters (correctAnswer : String) : List String :=
  (similarTable.lookup correctAnswer).getD ["X", "Y", "Z"]

/-- The first loop of `generateLetterOptions` (src/js/app.js:806-811):
while fewer than 4 options and candidates remain, splice a random
candidate out of the wrong-option list and keep it unless it is already
among the options.  Each iteration removes one candidate, so the loop is
run with fuel equal to the initial candidate count. -/
def addWrongLoop (r : Nat → Nat) : Nat → Nat → List String → List String → List String
  | 0, _, opts, _ => opts
  | fuel + 1, k, opts, wrong =>
    if opts.length < 4 ∧ wrong ≠ [] then
      addWrongLoop r fuel (k + 1)
        (if wrong.getD (r k % wrong.length) "" ∈ opts then opts
         else opts ++ [wrong.getD (r k % wrong.length) ""])
        (wrong.eraseIdx (r k % wrong.length))
    else opts

/-- The second loop of `generateLetterOptions` (src/js/app.js:814-819):
while fewer than 4 options, draw a random uppercase letter and keep it
unless already present.  For an adversarial random stream this JavaScript
loop never terminates, so the embedding carries fuel and returns `none`
on exhaustion. -/
def fillRandomLetters (r : Nat → Nat) : Nat → Nat → List String → Option (List String)
  | 0, _, opts => if opts.length < 4 then none else some opts
  | fuel + 1, k, opts =>
    if opts.length < 4 then
      fillRandomLetters r fuel (k + 1)
        (if String.mk [Char.ofNat (65 + r k % 26)] ∈ opts then opts
         else opts ++ [String.mk [Char.ofNat (65 + r k % 26)]])
    else some opts

/-- `generateLetterOptions` (src/js/app.js:799-822): start from
`[correctAnswer]`, add up to 3 similar wrong options, fill the rest with
random letters, and shuffle.  The three random streams model the
successive `Math.random()` draws of the three phases. -/
def generateLetterOptions (r1 r2 r3 : Nat → Nat) (fuel : Nat)
    (correctAnswer : String) : Option (List String) :=
  let wrong := generateSimilarLetters correctAnswer
  let opts := addWrongLoop r1 wrong.length 0 [correctAnswer] wrong
  (fillRandomLetters r2 fuel 0 opts).map fun os => shuffleArray r3 os

theorem addWrongLoop_inv (r : Nat → Nat) (ca : String) :
    ∀ (fuel k : Nat) (opts wrong : List String),
      opts.Nodup → ca ∈ opts → opts.length ≤ 4 →
      ((addWrongLoop r fuel k opts wrong).Nodup ∧
        ca ∈ addWrongLoop r fuel k opts wrong ∧
        (addWrongLoop r fuel k opts wrong).length ≤ 4) := by
  intro fuel
  induction fuel with
  | zero => intro k opts wrong h1 h2 h3; exact ⟨h1, h2, h3⟩
  | succ fuel ih =>
    intro k opts wrong h1 h2 h3
    unfold addWrongLoop
    by_cases hc : opts.length < 4 ∧ wrong ≠ []
    · rw [if_pos hc]
      by_cases hmem : wrong.getD (r k % wrong.length) "" ∈ opts
      · rw [if_pos hmem]
        exact ih (k + 1) opts _ h1 h2 h3
      · rw [if_neg hmem]
        refine ih (k + 1) (opts ++ [wrong.getD (r k % wrong.length) ""]) _ ?_ ?_ ?_
        · exact List.nodup_append.mpr ⟨h1, List.nodup_singleton _,
            by simpa [List.disjoint_singleton] using hmem⟩
        · exact List.mem_append_left _ h2
        · have h4 := hc.1
          simp only [List.length_append, List.length_singleton]
          omega
    · rw [if_neg hc]
      exact ⟨h1, h2, h3⟩

theorem fillRandomLetters_inv (r : Nat → Nat) (ca : String) :
    ∀ (fuel k : Nat) (opts out : List String),
      opts.Nodup → ca ∈ opts → opts.length ≤ 4 →
      fillRandomLetters r fuel k opts = some out →
      (out.length = 4 ∧ out.Nodup ∧ ca ∈ out) := by
  intro fuel
  induction fuel with
  | zero =>
    intro k opts out h1 h2 h3 h
    unfold fillRandomLetters at h
    by_cases hc : opts.length < 4
    · rw [if_pos hc] at h
      exact absurd h (by simp)
    · rw [if_neg hc] at h
      obtain rfl : opts = out := by simpa using h
      exact ⟨by omega, h1, h2⟩
  | succ fuel ih =>
    intro k opts out h1 h2 h3 h
    unfold fillRandomLetters at h
    by_cases hc : opts.length < 4
    · rw [if_pos hc] at h
      by_cases hmem : String.mk [Char.ofNat (65 + r k % 26)] ∈ opts
      · rw [if_pos hmem] at h
        exact ih (k + 1) opts out h1 h2 h3 h
      · rw [if_neg hmem] at h
        refine ih (k + 1) (opts ++ [String.mk [Char.ofNat (65 + r k % 26)]]) out ?_ ?_ ?_ h
        · exact List.nodup_append.mpr ⟨h1, List.nodup_singleton _,
            by simpa [List.disjoint_singleton] using hmem⟩
        · exact List.mem_append_left _ h2
        · simp only [List.length_append, List.length_singleton]
          omega
    · rw [if_neg hc] at h
      obtain rfl : opts = out := by simpa using h
      exact ⟨by omega, h1, h2⟩

/-- Claim C1: whenever `generateLetterOptions` produces an options list
(for any non-empty correct answer, any random draws and any fuel), that
list has exactly 4 entries, all pairwise distinct, and contains the
correct answer exactly once. -/
theorem generateLetterOptions_spec (r1 r2 r3 : Nat → Nat) (fuel : Nat)
    (ca : String) (hca : ca ≠ "") {opts : List String}
    (h : generateLetterOptions r1 r2 r3 fuel ca = some opts) :
    opts.length = 4 ∧ opts.Nodup ∧ opts.count ca = 1 := by
  unfold generateLetterOptions at h
  obtain ⟨os, hos, rfl⟩ := Option.map_eq_some'.mp h
  have hbase := addWrongLoop_inv r1 ca (generateSimilarLetters ca).length 0
    [ca] (generateSimilarLetters ca) (List.nodup_singleton ca)
    (List.mem_singleton_self ca) (by simp)
  obtain ⟨hlen, hnd, hmem⟩ :=
    fillRandomLetters_inv r2 ca fuel 0 _ os hbase.1 hbase.2.1 hbase.2.2 hos
  have hperm := shuffleArray_perm_lemma r3 os
  refine ⟨by rw [hperm.length_eq, hlen], hperm.nodup_iff.mpr hnd, ?_⟩
  rw [hperm.count_eq ca]
  exact List.count_eq_one_of_mem hnd hmem

theorem generateLetterOptions_spec_witness :
    (("A" : String) ≠ "") ∧
    generateLetterOptions (fun _ => 0) (fun _ => 0) (fun _ => 0) 30 "A" =
      some ["E", "I", "O", "A"] ∧
    ((["E", "I", "O", "A"] : List String).length = 4 ∧
      (["E", "I", "O", "A"] : List String).Nodup ∧
      (["E", "I", "O", "A"] : List String).count "A" = 1) :=
  ⟨by decide, by decide,
    generateLetterOptions_spec (fun _ => 0) (fun _ => 0) (fun _ => 0) 30 "A"
      (by decide) (by decide)⟩

/-- The mutable quiz state created by `initializeGame`
(src/js/app.js:599-617), restricted to the fields the state machine
reads and writes (DOM handles and the timer id are external surface). -/
structure GameState where
  currentQuestion : Nat
  score : Nat
  totalQuestions : Nat
  timeLeft : Int
  gameWords : List WordRecord
  correctAnswer : Option String
  displayWord : String
  letterOptions : List String
  isAnswered : Bool
deriving DecidableEq

/-- Observable effects the state machine requests from the
display/audio surface. -/
inductive GameEvent where
  | feedbackCorrect
  | feedbackWrong (correctAnswer : Option String)
  | feedbackTimeUp (correctAnswer : Option String)
  | playSound (correct : Bool)
  | clearTimer
  | scheduleNext (delayMs : Nat)
deriving DecidableEq

/-- `selectLetter` (src/js/app.js:942-964): no-op when the round is
already answered; otherwise mark answered, cancel the countdown, score a
strict-equality match against the correct answer, emit feedback and
schedule the next question after 2500 ms. -/
def selectLetter (gs : GameState) (letter : String) : GameState × List GameEvent :=
  if gs.isAnswered then (gs, [])
  else if gs.correctAnswer = some letter then
    ({ gs with isAnswered := true, score := gs.score + 1 },
      [GameEvent.clearTimer, GameEvent.playSound true, GameEvent.feedbackCorrect,
        GameEvent.scheduleNext 2500])
  else
    ({ gs with isAnswered := true },
      [GameEvent.clearTimer, GameEvent.playSound false,
        GameEvent.feedbackWrong gs.correctAnswer, GameEvent.scheduleNext 2500])

/-- `timeUp` (src/js/app.js:922-928): if the round is unanswered, mark it
answered, emit "time up" feedback naming the correct answer, and
schedule the next question after 2000 ms; otherwise do nothing. -/
def timeUp (gs : GameState) : GameState × List GameEvent :=
  if gs.isAnswered then (gs, [])
  else
    ({ gs with isAnswered := true },
      [GameEvent.feedbackTimeUp gs.correctAnswer, GameEvent.scheduleNext 2000])

/-- One firing of the countdown interval installed by `startTimer`
(src/js/app.js:904-917): decrement `timeLeft` and, when it has reached
zero (or below — the interval is not cleared on timeout), invoke
`timeUp`. -/
def tick (gs : GameState) : GameState × List GameEvent :=
  if gs.timeLeft - 1 ≤ 0 then timeUp { gs with timeLeft := gs.timeLeft - 1 }
  else ({ gs with timeLeft := gs.timeLeft - 1 }, [])

/-- `n` consecutive firings of the countdown interval, accumulating the
emitted events in order. -/
def ticks : Nat → GameState → GameState × List GameEvent
  | 0, gs => (gs, [])
  | n + 1, gs =>
    ((ticks n (tick gs).1).1, (tick gs).2 ++ (ticks n (tick gs).1).2)

/-- Claim C4: calling `selectLetter` when the round is already answered
is a no-op — the state (score included) is returned unchanged and no
event (feedback, sound, scheduling) is emitted; hence only the first
answer of a round can affect the score. -/
theorem selectLetter_answered_noop (gs : GameState) (letter : String)
    (h : gs.isAnswered = true) : selectLetter gs letter = (gs, []) := by
  unfold selectLetter
  rw [if_pos h]

theorem selectLetter_answered_noop_witness :
    (({ currentQuestion := 3, score := 2, totalQuestions := 10, timeLeft := 5,
         gameWords := [], correctAnswer := some "A", displayWord := "C_T",
         letterOptions := ["A", "E", "I", "O"], isAnswered := true } :
          GameState).isAnswered = true) ∧
    selectLetter
      ({ currentQuestion := 3, score := 2, totalQuestions := 10, timeLeft := 5,
          gameWords := [], correctAnswer := some "A", displayWord := "C_T",
          letterOptions := ["A", "E", "I", "O"], isAnswered := true } : GameState) "A" =
      (({ currentQuestion := 3, score := 2, totalQuestions := 10, timeLeft := 5,
           gameWords := [], correctAnswer := some "A", displayWord := "C_T",
           letterOptions := ["A", "E", "I", "O"], isAnswered := true } : GameState), []) :=
  ⟨rfl, selectLetter_answered_noop _ "A" rfl⟩

theorem tick_answered (gs : GameState) (h : gs.isAnswered = true) :
    (tick gs).1.isAnswered = true ∧ (tick gs).2 = [] := by
  unfold tick timeUp
  by_cases hc : gs.timeLeft - 1 ≤ 0 <;> simp [hc, h]

theorem ticks_answered (gs : GameState) (h : gs.isAnswered = true) :
    ∀ n, (ticks n gs).2 = [] := by
  intro n
  induction n generalizing gs with
  | zero => rfl
  | succ n ih =>
    obtain ⟨h1, h2⟩ := tick_answered gs h
    unfold ticks
    rw [h2, ih (tick gs).1 h1]
    rfl

theorem tick_unanswered_fields (gs : GameState) :
    (tick gs).1.correctAnswer = gs.correctAnswer ∧
    (tick gs).1.timeLeft = gs.timeLeft - 1 := by
  unfold tick timeUp
  by_cases hc : gs.timeLeft - 1 ≤ 0 <;>
    by_cases ha : gs.isAnswered <;> simp [hc, ha]

theorem ticks_countdown (gs : GameState) (t : Int) (n : Nat)
    (ha : gs.isAnswered = false) (ht : gs.timeLeft = t) (h0 : 0 < t)
    (hn : t ≤ (n : Int)) :
    (ticks n gs).2 =
      [GameEvent.feedbackTimeUp gs.correctAnswer, GameEvent.scheduleNext 2000] := by
  induction n generalizing gs t with
  | zero => omega
  | succ n ih =>
    unfold ticks
    by_cases h1 : t = 1
    · have hle : gs.timeLeft - 1 ≤ 0 := by omega
      have ha1 : (tick gs).1.isAnswered = true := by
        unfold tick timeUp
        rw [if_pos hle]
        simp [ha]
      have he1 : (tick gs).2 =
          [GameEvent.feedbackTimeUp gs.correctAnswer, GameEvent.scheduleNext 2000] := by
        unfold tick timeUp
        rw [if_pos hle]
        simp [ha]
      rw [he1, ticks_answered _ ha1 n]
      simp
    · have hgt : ¬ gs.timeLeft - 1 ≤ 0 := by omega
      have htick : tick gs = ({ gs with timeLeft := gs.timeLeft - 1 }, []) := by
        unfold tick
        rw [if_neg hgt]
      have := ih (tick gs).1 (t - 1)
        (by rw [htick]; exact ha) (by rw [htick]; simp [ht]) (by omega)
        (by omega)
      have hca : (tick gs).1.correctAnswer = gs.correctAnswer := by
        rw [htick]
      rw [hca] at this
      have he : (tick gs).2 = [] := by rw [htick]
      rw [he, this]
      simp

/-- Claim C5: in a fresh round (10 seconds on the clock, unanswered),
if no answer is ever submitted then across any number `n ≥ 10` of
countdown firings exactly one "time up" feedback event naming the
correct answer is emitted and exactly one next-round advancement is
scheduled — the ticks that keep firing after the timeout (the interval
is not cleared by `timeUp`) add nothing. -/
theorem ticks_timeout_once (gs : GameState) (n : Nat)
    (ha : gs.isAnswered = false) (ht : gs.timeLeft = 10) (hn : 10 ≤ n) :
    (ticks n gs).2 =
      [GameEvent.feedbackTimeUp gs.correctAnswer, GameEvent.scheduleNext 2000] :=
  ticks_countdown gs 10 n ha ht (by omega) (by exact_mod_cast Nat.cast_le.mpr hn)

theorem ticks_timeout_once_witness :
    (({ currentQuestion := 0, score := 0, totalQuestions := 10, timeLeft := 10,
         gameWords := [], correctAnswer := some "SH", displayWord := "__IP",
         letterOptions := ["SH", "CH", "TH", "PH"], isAnswered := false } :
          GameState).isAnswered = false) ∧
    (ticks 12
      ({ currentQuestion := 0, score := 0, totalQuestions := 10, timeLeft := 10,
          gameWords := [], correctAnswer := some "SH", displayWord := "__IP",
          letterOptions := ["SH", "CH", "TH", "PH"], isAnswered := false } :
            GameState)).2 =
      [GameEvent.feedbackTimeUp (some "SH"), GameEvent.scheduleNext 2000] :=
  ⟨rfl, ticks_timeout_once _ 12 rfl rfl (by decide)⟩

/-- The easy pool of `selectGameWords` (src/js/app.js:634-636):
`word.category === 'simple' && word.word.length <= 3`. -/
def easyWords (ws : List WordRecord) : List WordRecord :=
  ws.filter fun w => decide (w.category = "simple" ∧ w.word.length ≤ 3)

/-- The hard pool of `selectGameWords` (src/js/app.js:637-639):
`['digraph', 'blend', 'trigraph', 'vowel_team'].includes(word.category)`. -/
def hardWords (ws : List WordRecord) : List WordRecord :=
  ws.filter fun w =>
    decide (w.category ∈ (["digraph", "blend", "trigraph", "vowel_team"] : List String))

/-- `selectGameWords` (src/js/app.js:633-647): shuffle each pool, take
the first 5 of each, concatenate, and shuffle the result.  The three
streams model the `Math.random()` draws of the three `shuffleArray`
calls. -/
def selectGameWords (r1 r2 r3 : Nat → Nat) (ws : List WordRecord) : List WordRecord :=
  shuffleArray r3
    ((shuffleArray r1 (easyWords ws)).take 5 ++ (shuffleArray r2 (hardWords ws)).take 5)

theorem count_filter_le {α : Type _} [DecidableEq α] (p : α → Bool) (l : List α) (a : α) :
    (l.filter p).count a ≤ l.count a :=
  (List.filter_sublist l).count_le a

theorem count_filter_eq_zero {α : Type _} [DecidableEq α] {p : α → Bool} {a : α}
    (hp : p a = false) (l : List α) : (l.filter p).count a = 0 := by
  rw [List.count_eq_zero]
  intro hmem
  rw [List.mem_filter, hp] at hmem
  exact Bool.false_ne_true hmem.2

/-- Claim C7: the round sequence built by `selectGameWords` (called from
`initializeGame` when the game starts) is a permutation of a list
`e ++ h` where `e` is at most 5 words drawn without replacement from the
easy pool (category `simple` and text length ≤ 3) and `h` is at most 5
words drawn without replacement from the hard pool (category among
digraph, blend, trigraph, vowel_team); consequently no word occurs in
the round sequence more often than in the catalog. -/
theorem selectGameWords_spec (r1 r2 r3 : Nat → Nat) (ws : List WordRecord) :
    ∃ e h : List WordRecord,
      e.Subperm (easyWords ws) ∧ h.Subperm (hardWords ws) ∧
      e.length ≤ 5 ∧ h.length ≤ 5 ∧
      (selectGameWords r1 r2 r3 ws).Perm (e ++ h) ∧
      ∀ w, (selectGameWords r1 r2 r3 ws).count w ≤ ws.count w := by
  refine ⟨(shuffleArray r1 (easyWords ws)).take 5,
    (shuffleArray r2 (hardWords ws)).take 5, ?_, ?_, ?_, ?_, ?_, ?_⟩
  · exact ((List.take_sublist 5 _).subperm).trans (shuffleArray_perm_lemma r1 _).subperm
  · exact ((List.take_sublist 5 _).subperm).trans (shuffleArray_perm_lemma r2 _).subperm
  · simp
  · simp
  · exact shuffleArray_perm_lemma r3 _
  · intro w
    have hsel := (shuffleArray_perm_lemma r3
      ((shuffleArray r1 (easyWords ws)).take 5 ++
        (shuffleArray r2 (hardWords ws)).take 5)).count_eq w
    have he : ((shuffleArray r1 (easyWords ws)).take 5).count w ≤
        (easyWords ws).count w :=
      (((List.take_sublist 5 _).subperm).trans
        (shuffleArray_perm_lemma r1 _).subperm).count_le w
    have hh : ((shuffleArray r2 (hardWords ws)).take 5).count w ≤
        (hardWords ws).count w :=
      (((List.take_sublist 5 _).subperm).trans
        (shuffleArray_perm_lemma r2 _).subperm).count_le w
    have hdisj : (easyWords ws).count w + (hardWords ws).count w ≤ ws.count w := by
      by_cases hcat : w.category = "simple"
      · have h0 : (hardWords ws).count w = 0 := by
          refine count_filter_eq_zero ?_ ws
          simp [hcat]
        have h1 : (easyWords ws).count w ≤ ws.count w := count_filter_le _ ws w
        omega
      · have h0 : (easyWords ws).count w = 0 := by
          refine count_filter_eq_zero ?_ ws
          simp [hcat]
        have h1 : (hardWords ws).count w ≤ ws.count w := count_filter_le _ ws w
        omega
    unfold selectGameWords
    rw [hsel, List.count_append]
    omega

/-- `endGame`'s results message (src/js/app.js:1022-1048):
`percentage = (score / totalQuestions) * 100`, then four fixed bands.
Number arithmetic is modelled exactly, over the rationals. -/
def resultsMessage (score total : Nat) : String :=
  if 90 ≤ (score : ℚ) / (total : ℚ) * 100 then
    "🌟 Outstanding! You\x27re a word wizard!"
  else if 70 ≤ (score : ℚ) / (total : ℚ) * 100 then
    "🎉 Great job! Keep up the excellent work!"
  else if 50 ≤ (score : ℚ) / (total : ℚ) * 100 then
    "👍 Good effort! Practice makes perfect!"
  else
    "💪 Keep trying! You\x27ll get better with practice!"

/-- Claim C8: the encouragement message emitted at the end of a game is
determined solely by the percentage score, in four fixed bands:
≥ 90 % the top tier, 70–90 % the high tier, 50–70 % the mid tier,
below 50 % the encouragement tier. -/
theorem resultsMessage_bands (score total : Nat) :
    (resultsMessage score total = "🌟 Outstanding! You\x27re a word wizard!" ↔
      90 ≤ (score : ℚ) / (total : ℚ) * 100) ∧
    (resultsMessage score total = "🎉 Great job! Keep up the excellent work!" ↔
      (70 ≤ (score : ℚ) / (total : ℚ) * 100 ∧
        (score : ℚ) / (total : ℚ) * 100 < 90)) ∧
    (resultsMessage score total = "👍 Good effort! Practice makes perfect!" ↔
      (50 ≤ (score : ℚ) / (total : ℚ) * 100 ∧
        (score : ℚ) / (total : ℚ) * 100 < 70)) ∧
    (resultsMessage score total = "💪 Keep trying! You\x27ll get better with practice!" ↔
      (score : ℚ) / (total : ℚ) * 100 < 50) := by
  have hne12 : ("🌟 Outstanding! You\x27re a word wizard!" : String) ≠
      "🎉 Great job! Keep up the excellent work!" := by decide
  have hne13 : ("🌟 Outstanding! You\x27re a word wizard!" : String) ≠
      "👍 Good effort! Practice makes perfect!" := by decide
  have hne14 : ("🌟 Outstanding! You\x27re a word wizard!" : String) ≠
      "💪 Keep trying! You\x27ll get better with practice!" := by decide
  have hne23 : ("🎉 Great job! Keep up the excellent work!" : String) ≠
      "👍 Good effort! Practice makes perfect!" := by decide
  have hne24 : ("🎉 Great job! Keep up the excellent work!" : String) ≠
      "💪 Keep trying! You\x27ll get better with practice!" := by decide
  have hne34 : ("👍 Good effort! Practice makes perfect!" : String) ≠
      "💪 Keep trying! You\x27ll get better with practice!" := by decide
  unfold resultsMessage
  by_cases h90 : 90 ≤ (score : ℚ) / (total : ℚ) * 100
  · rw [if_pos h90]
    have f70 : ¬ (score : ℚ) / (total : ℚ) * 100 < 70 := by
      intro hlt; linarith
    have f50 : ¬ (score : ℚ) / (total : ℚ) * 100 < 50 := by
      intro hlt; linarith
    simp [h90, hne12, hne13, hne14, not_lt.mpr h90, f70, f50]
  · rw [if_neg h90]
    by_cases h70 : 70 ≤ (score : ℚ) / (total : ℚ) * 100
    · rw [if_pos h70]
      have f50 : ¬ (score : ℚ) / (total : ℚ) * 100 < 50 := by
        intro hlt; linarith
      simp [h90, h70, not_le.mp h90, Ne.symm hne12, hne23, hne24,
        not_lt.mpr h70, f50]
    · rw [if_neg h70]
      by_cases h50 : 50 ≤ (score : ℚ) / (total : ℚ) * 100
      · rw [if_pos h50]
        simp [h90, h70, h50, not_le.mp h70, Ne.symm hne13, Ne.symm hne23,
          hne34, not_lt.mpr h50]
      · rw [if_neg h50]
        simp [h90, h70, h50, not_le.mp h50, Ne.symm hne14, Ne.symm hne24,
          Ne.symm hne34]

/-- JavaScript `Map.prototype.set` on an association list: if the key is
already present its value is replaced (keeping its position), otherwise
the pair is appended. -/
def mapSet (m : List (String × WordRecord)) (k : String) (v : WordRecord) :
    List (String × WordRecord) :=
  if m.any (fun p => p.1 == k) then
    m.map fun p => if p.1 = k then (k, v) else p
  else m ++ [(k, v)]

/-- The lookup-map construction of `loadWords` (src/js/app.js:116-118):
`this.words.forEach(w => { if (w && w.word) this.wordLookup.set(w.word, w); })`
— records whose text is empty (falsy) are skipped, and a later record
with the same text overwrites an earlier one. -/
def buildLookup (ws : List WordRecord) : List (String × WordRecord) :=
  ws.foldl (fun m w => if w.word = "" then m else mapSet m w.word w) []

theorem mapSet_snd_mem {m : List (String × WordRecord)} {k : String}
    {v : WordRecord} {p : String × WordRecord} (h : p ∈ mapSet m k v) :
    p.2 = v ∨ p ∈ m := by
  unfold mapSet at h
  by_cases hk : m.any (fun p => p.1 == k)
  · rw [if_pos hk] at h
    obtain ⟨q, hq, hpq⟩ := List.mem_map.mp h
    by_cases hq1 : q.1 = k
    · rw [if_pos hq1] at hpq
      exact Or.inl (by rw [← hpq])
    · rw [if_neg hq1] at hpq
      exact Or.inr (hpq ▸ hq)
  · rw [if_neg hk] at h
    rcases List.mem_append.mp h with h' | h'
    · exact Or.inr h'
    · exact Or.inl (by simpa using congrArg Prod.snd (List.mem_singleton.mp h'))

theorem buildLookup_values_aux :
    ∀ (ws : List WordRecord) (m : List (String × WordRecord))
      (p : String × WordRecord),
      p ∈ ws.foldl (fun m w => if w.word = "" then m else mapSet m w.word w) m →
      p ∈ m ∨ p.2 ∈ ws := by
  intro ws
  induction ws with
  | nil => intro m p h; exact Or.inl h
  | cons w ws' ih =>
    intro m p h
    simp only [List.foldl_cons] at h
    rcases ih _ p h with h' | h'
    · by_cases hw : w.word = ""
      · rw [if_pos hw] at h'
        exact Or.inl h'
      · rw [if_neg hw] at h'
        rcases mapSet_snd_mem h' with h'' | h''
        · exact Or.inr (h'' ▸ List.mem_cons_self w ws')
        · exact Or.inl h''
    · exact Or.inr (List.mem_cons_of_mem w h')

theorem mapSet_mem_of_ne {m : List (String × WordRecord)} {k k' : String}
    {v v' : WordRecord} (hne : k ≠ k') (h : (k, v) ∈ m) :
    (k, v) ∈ mapSet m k' v' := by
  unfold mapSet
  by_cases hk : m.any (fun p => p.1 == k')
  · rw [if_pos hk]
    have : (if (k, v).1 = k' then (k', v') else (k, v)) = (k, v) := if_neg hne
    exact this ▸ List.mem_map_of_mem _ h
  · rw [if_neg hk]
    exact List.mem_append_left _ h

theorem mapSet_mem_self (m : List (String × WordRecord)) (k : String)
    (v : WordRecord) : (k, v) ∈ mapSet m k v := by
  unfold mapSet
  by_cases hk : m.any (fun p => p.1 == k)
  · rw [if_pos hk]
    obtain ⟨q, hq, hq1⟩ := List.any_eq_true.mp hk
    have hmem := List.mem_map_of_mem (fun p => if p.1 = k then (k, v) else p) hq
    dsimp only at hmem
    rw [if_pos (show q.1 = k by simpa using hq1)] at hmem
    exact hmem
  · rw [if_neg hk]
    exact List.mem_append_right _ (List.mem_singleton_self _)

theorem buildLookup_preserved :
    ∀ (ws : List WordRecord) (m : List (String × WordRecord)) (k : String)
      (v : WordRecord), (k, v) ∈ m → (∀ w ∈ ws, w.word ≠ k) →
      (k, v) ∈ ws.foldl (fun m w => if w.word = "" then m else mapSet m w.word w) m := by
  intro ws
  induction ws with
  | nil => intro m k v h _; exact h
  | cons w ws' ih =>
    intro m k v h hk
    simp only [List.foldl_cons]
    refine ih _ k v ?_ fun w' hw' => hk w' (List.mem_cons_of_mem w hw')
    by_cases hw : w.word = ""
    · rw [if_pos hw]; exact h
    · rw [if_neg hw]
      exact mapSet_mem_of_ne (fun he => hk w (List.mem_cons_self w ws') he.symm) h

theorem buildLookup_complete_aux :
    ∀ (ws : List WordRecord) (m : List (String × WordRecord)),
      (ws.map (fun w => w.word)).Nodup → (∀ w ∈ ws, w.word ≠ "") →
      ∀ w ∈ ws, (w.word, w) ∈
        ws.foldl (fun m w => if w.word = "" then m else mapSet m w.word w) m := by
  intro ws
  induction ws with
  | nil => intro m _ _ w hw; exact absurd hw (List.not_mem_nil w)
  | cons w₀ ws' ih =>
    intro m hnd hne w hw
    simp only [List.map_cons, List.nodup_cons] at hnd
    simp only [List.foldl_cons]
    rcases List.mem_cons.mp hw with rfl | hw'
    · refine buildLookup_preserved ws' _ w.word w ?_ ?_
      · rw [if_neg (hne w (List.mem_cons_self w ws'))]
        exact mapSet_mem_self m w.word w
      · intro w' hw' heq
        exact hnd.1 (heq ▸ List.mem_map_of_mem (fun x => x.word) hw')
    · exact ih _ hnd.2 (fun x hx => hne x (List.mem_cons_of_mem w₀ hx)) w hw'

/-- Claim C9 (amended): after the catalog is loaded, every record stored
in the derived text→record mapping also appears in the word sequence —
unconditionally, for every catalog; and provided all records have
non-empty, pairwise-distinct texts, every record of the sequence also
appears (under its own text) in the mapping.  (With duplicate or empty
texts the second direction fails — see the counterexample.) -/
theorem buildLookup_inv (ws : List WordRecord) :
    (∀ p ∈ buildLookup ws, p.2 ∈ ws) ∧
    (((ws.map (fun w => w.word)).Nodup ∧ ∀ w ∈ ws, w.word ≠ "") →
      ∀ w ∈ ws, (w.word, w) ∈ buildLookup ws) := by
  constructor
  · intro p hp
    rcases buildLookup_values_aux ws [] p hp with h | h
    · exact absurd h (List.not_mem_nil p)
    · exact h
  · intro hcond
    exact buildLookup_complete_aux ws [] hcond.1 hcond.2

theorem buildLookup_inv_witness :
    (¬ (([⟨"cat", "kat", "simple"⟩, ⟨"cat", "sat", "simple"⟩] :
        List WordRecord).map (fun w => w.word)).Nodup) ∧
    (∀ p ∈ buildLookup [⟨"cat", "kat", "simple"⟩, ⟨"cat", "sat", "simple"⟩],
      p.2 ∈ ([⟨"cat", "kat", "simple"⟩, ⟨"cat", "sat", "simple"⟩] :
        List WordRecord)) ∧
    ((([⟨"cat", "kat", "simple"⟩, ⟨"ship", "ʃɪp", "digraph"⟩] :
        List WordRecord).map (fun w => w.word)).Nodup ∧
      ∀ w ∈ ([⟨"cat", "kat", "simple"⟩, ⟨"ship", "ʃɪp", "digraph"⟩] :
        List WordRecord), w.word ≠ "") ∧
    (∀ w ∈ ([⟨"cat", "kat", "simple"⟩, ⟨"ship", "ʃɪp", "digraph"⟩] :
        List WordRecord),
      (w.word, w) ∈ buildLookup [⟨"cat", "kat", "simple"⟩, ⟨"ship", "ʃɪp", "digraph"⟩]) :=
  ⟨by decide,
    (buildLookup_inv [⟨"cat", "kat", "simple"⟩, ⟨"cat", "sat", "simple"⟩]).1,
    ⟨by decide, by decide⟩,
    (buildLookup_inv [⟨"cat", "kat", "simple"⟩, ⟨"ship", "ʃɪp", "digraph"⟩]).2
      ⟨by decide, by decide⟩⟩

/-- Claim C9 counterexample: with two distinct records sharing the text
"cat", `Map.set` overwrites the first record, which then appears in the
word sequence but not among the mapping's values — the unconditional
invariant claimed is false. -/
theorem buildLookup_inv_refuted :
    ((⟨"cat", "kat", "simple"⟩ : WordRecord) ∈
      ([⟨"cat", "kat", "simple"⟩, ⟨"cat", "sat", "simple"⟩] : List WordRecord)) ∧
    (⟨"cat", "kat", "simple"⟩ : WordRecord) ∉
      (buildLookup [⟨"cat", "kat", "simple"⟩, ⟨"cat", "sat", "simple"⟩]).map
        Prod.snd := by decide

end KidsApp
